import Mathlib

/-!
Shallow embedding of the command-interpreter (REPL shell) source, for checking
its natural-language specification.

The embedding follows `src/main.rs`:
  * `Command`, its `Display` instance (`Command.render`), `CommandChain`;
  * `parse_command` and `parse_cmds` (the chain parser);
  * `Command.execute` (the process executor), with the operating system
    modelled as an oracle `World.exec` answering each spawn request;
  * `CommandRunner.run` (`runChains`), the builtin dispatch over session state;
  * the `main` loop (`replStep` / `replRun`), with line reading modelled as an
    `Except Unit String` input and prompt writing as a boolean oracle.

Rust string primitives (`trim`, `split`, `split_terminator`, `split_whitespace`,
`str::parse::<i32>`, `String::from_utf8`) are re-implemented structurally over
`List Char` / `List Nat` so that every definition evaluates by kernel reduction.
-/

namespace Shell

instance {ε α : Type _} [DecidableEq ε] [DecidableEq α] : DecidableEq (Except ε α) :=
  fun x y =>
  match x, y with
  | .ok a, .ok b =>
    if h : a = b then .isTrue (by rw [h]) else .isFalse (fun he => h (by injection he))
  | .error a, .error b =>
    if h : a = b then .isTrue (by rw [h]) else .isFalse (fun he => h (by injection he))
  | .ok _, .error _ => .isFalse (fun he => Except.noConfusion he)
  | .error _, .ok _ => .isFalse (fun he => Except.noConfusion he)

/-- Unicode-ish whitespace test used by `trim` / `split_whitespace`
(ASCII whitespace; the shell's inputs are ASCII). -/
def isWS (c : Char) : Bool := c.isWhitespace

/-- Drop leading whitespace characters. -/
def dropLeadingWS : List Char → List Char
  | [] => []
  | c :: cs => if isWS c then dropLeadingWS cs else c :: cs

/-- Rust `str::trim` on `String`: remove leading and trailing whitespace. -/
def strTrim (s : String) : String :=
  ⟨(dropLeadingWS (dropLeadingWS s.data).reverse).reverse⟩

/-- Rust `str::split(sep)` over a character separator: `n` separators yield
`n + 1` pieces, empty pieces included. -/
def splitCh (sep : Char) : List Char → List (List Char)
  | [] => [[]]
  | c :: cs =>
    let r := splitCh sep cs
    if c = sep then [] :: r
    else
      match r with
      | g :: gs => (c :: g) :: gs
      | [] => [[c]]

/-- Rust `str::split_terminator(sep)`: like `split`, but the final piece is
omitted when it is empty (so the empty string yields no pieces). -/
def splitTerminatorCh (sep : Char) (s : List Char) : List (List Char) :=
  match (splitCh sep s).reverse with
  | [] => []
  | last :: rest => if last = [] then rest.reverse else (last :: rest).reverse

/-- Rust `str::split_whitespace`: maximal runs of non-whitespace characters. -/
def splitWhitespace (s : List Char) : List (List Char) :=
  (s.splitOnP isWS).filter (fun g => g ≠ [])

/-- A parsed command: executable name and arguments (struct `Command`). -/
structure Command where
  bin : String
  args : List String
deriving DecidableEq, Repr

/-- Join strings with a single-space separator (Rust `[String]::join(" ")`). -/
def joinSpace (args : List String) : String :=
  ⟨List.intercalate [' '] (args.map String.data)⟩

/-- The `Display` impl for `Command`:
`write!(f, "{} {}", self.bin, self.args.join(" "))`. -/
def Command.render (c : Command) : String :=
  c.bin ++ " " ++ joinSpace c.args

/-- A chain element (enum `CommandChain`): a single command or a piped pair. -/
inductive CommandChain where
  | Command : Shell.Command → CommandChain
  | Piped : Shell.Command × Shell.Command → CommandChain
deriving DecidableEq, Repr

/-- The error values the shell can produce (`Box<dyn Error>` payloads,
distinguished by origin). -/
inductive ShellError where
  /-- `parse_command`: "No command given". -/
  | noCommandGiven
  /-- `parse_cmds`: "Expected one or two commands, got {raw_command}". -/
  | pipeArity (segment : String)
  /-- `read_line` I/O failure inside `parse_cmds`. -/
  | readLineErr
  /-- `run`, `cd` branch: "Expected a single path". -/
  | cdMissingArg
  /-- `run`, `cd` branch: `canonicalize()` failure. -/
  | canonicalizeErr
  /-- `run`, `exit` branch: `exit_code.parse()` failure. -/
  | exitParseErr
  /-- `Command::execute`: `spawn()` failure. -/
  | spawnErr
  /-- `Command::execute`: `write_all` / `wait_with_output` failure. -/
  | ioErr
  /-- `run`: `String::from_utf8(output)` failure. -/
  | utf8Err
  /-- `show_prompt`: stdout write/flush failure. -/
  | promptErr
deriving DecidableEq, Repr

/-- Source `fn parse_command(cmd1: &str) -> Result<Command>`: split on whitespace,
first token is the executable, the rest are the arguments; no tokens is the
error "No command given". -/
def parse_command (cmd1 : String) : Except ShellError Command :=
  let parts : List String := (splitWhitespace cmd1.data).map (fun g => ⟨g⟩)
  match parts with
  | [] => .error .noCommandGiven
  | cmd :: args => .ok { bin := cmd, args := args }

/-- The loop body of `parse_cmds`: fold the `;`-separated segments, splitting
each on `|`; two parts make a `Piped` pair, one part a single `Command`, any
other count is the arity error; the first error aborts the whole parse. -/
def parseChains : List String → Except ShellError (List CommandChain)
  | [] => .ok []
  | raw :: rest =>
    match (splitCh '|' raw.data).map (fun g => (⟨g⟩ : String)) with
    | [cmd1, cmd2] => do
      let c1 ← parse_command cmd1
      let c2 ← parse_command cmd2
      let tail ← parseChains rest
      pure (.Piped (c1, c2) :: tail)
    | [cmd1] => do
      let c ← parse_command cmd1
      let tail ← parseChains rest
      pure (.Command c :: tail)
    | _ => .error (.pipeArity raw)

/-- Helper for `parse_cmds`, the `;`-separated segments of a line:
`buf.trim().split_terminator(';').collect()`. -/
def lineSegments (line : String) : List String :=
  (splitTerminatorCh ';' (strTrim line).data).map (fun g => ⟨g⟩)

/-- Source `fn parse_cmds() -> Result<Vec<CommandChain>>` with the `read_line` call
made explicit: an input-stream failure is `readLineErr`; otherwise the line is
trimmed, split on `;` with `split_terminator`, and each segment parsed. -/
def parse_cmds (readResult : Except Unit String) : Except ShellError (List CommandChain) :=
  match readResult with
  | .error _ => .error .readLineErr
  | .ok buf => parseChains (lineSegments buf)

/-- Is the byte a UTF-8 continuation byte (`0x80..=0xBF`)? -/
def isCont (b : Nat) : Bool := 0x80 ≤ b && b ≤ 0xBF

/-- UTF-8 decoding of a byte sequence (`String::from_utf8`), `none` on
invalid UTF-8: the standard byte-pattern table, rejecting overlong forms,
surrogates and codepoints beyond `0x10FFFF`. -/
def utf8DecodeChars : List Nat → Option (List Char)
  | [] => some []
  | b1 :: bs =>
    if b1 ≤ 0x7F then
      (utf8DecodeChars bs).map (fun cs => Char.ofNat b1 :: cs)
    else if 0xC2 ≤ b1 && b1 ≤ 0xDF then
      match bs with
      | b2 :: bs2 =>
        if isCont b2 then
          (utf8DecodeChars bs2).map (fun cs =>
            Char.ofNat ((b1 - 0xC0) * 64 + (b2 - 0x80)) :: cs)
        else none
      | [] => none
    else if 0xE0 ≤ b1 && b1 ≤ 0xEF then
      match bs with
      | b2 :: b3 :: bs3 =>
        let b2ok : Bool :=
          if b1 = 0xE0 then 0xA0 ≤ b2 && b2 ≤ 0xBF
          else if b1 = 0xED then 0x80 ≤ b2 && b2 ≤ 0x9F
          else isCont b2
        if b2ok && isCont b3 then
          (utf8DecodeChars bs3).map (fun cs =>
            Char.ofNat ((b1 - 0xE0) * 4096 + (b2 - 0x80) * 64 + (b3 - 0x80)) :: cs)
        else none
      | _ => none
    else if 0xF0 ≤ b1 && b1 ≤ 0xF4 then
      match bs with
      | b2 :: b3 :: b4 :: bs4 =>
        let b2ok : Bool :=
          if b1 = 0xF0 then 0x90 ≤ b2 && b2 ≤ 0xBF
          else if b1 = 0xF4 then 0x80 ≤ b2 && b2 ≤ 0x8F
          else isCont b2
        if b2ok && isCont b3 && isCont b4 then
          (utf8DecodeChars bs4).map (fun cs =>
            Char.ofNat
              ((b1 - 0xF0) * 262144 + (b2 - 0x80) * 4096 + (b3 - 0x80) * 64 + (b4 - 0x80)) :: cs)
        else none
      | _ => none
    else none

/-- `String::from_utf8` as used on a child's captured stdout. -/
def utf8Decode (bs : List Nat) : Option String :=
  (utf8DecodeChars bs).map (fun cs => ⟨cs⟩)

/-- Accumulate ASCII digits; `none` as soon as a non-digit appears. -/
def digitsValGo (acc : Nat) : List Char → Option Nat
  | [] => some acc
  | c :: cs => if c.isDigit then digitsValGo (acc * 10 + (c.toNat - 48)) cs else none

/-- Rust `str::parse::<i32>()`: optional sign, one or more ASCII digits,
nothing else, and the value within `i32` range. -/
def parseI32 (s : String) : Option Int :=
  let sd : Int × List Char :=
    match s.data with
    | '+' :: r => (1, r)
    | '-' :: r => (-1, r)
    | r => (1, r)
  match sd.2 with
  | [] => none
  | _ =>
    match digitsValGo 0 sd.2 with
    | none => none
    | some n =>
      let v : Int := sd.1 * (n : Int)
      if -(2 ^ 31) ≤ v ∧ v ≤ 2 ^ 31 - 1 then some v else none

/-- The operating system's answer to one spawn-and-wait interaction of
`Command::execute`: the spawn fails, a stream operation fails, or the child
runs to completion with an exit status and captured stdout bytes. -/
inductive OSResp where
  | spawnFail
  | ioFail
  | exited (status : Int) (stdout : List Nat)
deriving DecidableEq, Repr

/-- Source `fn execute(&self, cwd: &PathBuf, input: Option<Vec<u8>>)`: spawn the
process (stdin/stdout piped), write `input` to stdin when present, wait, and
return the child's stdout — the exit status in `output.status` is never
inspected. The OS is the oracle `os`. -/
def Command.execute (os : Command → String → Option (List Nat) → OSResp)
    (c : Command) (cwd : String) (input : Option (List Nat)) :
    Except ShellError (Option (List Nat)) :=
  match os c cwd input with
  | .spawnFail => .error .spawnErr
  | .ioFail => .error .ioErr
  | .exited _ stdout => .ok (some stdout)

/-- Rust `PathBuf::join` on Unix paths: an absolute `p` replaces the base,
otherwise it is appended with a `/` separator. -/
def pathJoin (base p : String) : String :=
  match p.data with
  | '/' :: _ => p
  | _ =>
    match base.data.getLast? with
    | some '/' => base ++ p
    | _ => base ++ "/" ++ p

/-- The environment `run` interacts with: the process-spawning oracle,
the filesystem's answer to `canonicalize` (`none` = failure: nonexistent
path, not a directory, permission denied), and whether writing the prompt
to stdout succeeds. -/
structure World where
  exec : Command → String → Option (List Nat) → OSResp
  canonicalize : String → Option String
  promptOk : Bool

/-- Source `struct CommandRunner { pwd: PathBuf, history: Vec<String> }`. -/
structure CommandRunner where
  pwd : String
  history : List String
deriving DecidableEq, Repr

/-- Outcome of one `CommandRunner::run` call: `Ok(())`, an early `Err`
(from a `?` or `return Err`), or `std::process::exit`. Each carries the
session state at that point and the text written to stdout, in order. -/
inductive RunOutcome where
  | ok (st : CommandRunner) (printed : List String)
  | err (st : CommandRunner) (printed : List String) (e : ShellError)
  | exited (st : CommandRunner) (printed : List String) (code : Int)
deriving DecidableEq, Repr

/-- The session state carried by a `RunOutcome`. -/
def RunOutcome.state : RunOutcome → CommandRunner
  | .ok st _ => st
  | .err st _ _ => st
  | .exited st _ _ => st

/-- Source `CommandRunner::run`: iterate the chain elements; for a `Single`
element push its textual form to history, then dispatch `cd` / `exit` /
`history` builtins or execute externally (errors of a single external are
discarded); for a `Piped` element execute both stages, wiring the first's
stdout to the second's stdin, with `?` on both stages; print any
`Ok(Some(bytes))` result after UTF-8 decoding. -/
def runChains (w : World) : CommandRunner → List String → List CommandChain → RunOutcome
  | st, printed, [] => .ok st printed
  | st, printed, .Command cmd :: rest =>
    let st1 : CommandRunner := { st with history := st.history ++ [cmd.render] }
    if cmd.bin = "cd" then
      match cmd.args.head? with
      | none => .err st1 printed .cdMissingArg
      | some path =>
        match w.canonicalize (pathJoin st1.pwd path) with
        | none => .err st1 printed .canonicalizeErr
        | some newPwd => runChains w { st1 with pwd := newPwd } printed rest
    else if cmd.bin = "exit" then
      match cmd.args.head? with
      | none => .exited st1 printed 0
      | some a =>
        match parseI32 a with
        | none => .err st1 printed .exitParseErr
        | some code => .exited st1 printed code
    else if cmd.bin = "history" then
      runChains w st1 (printed ++ st1.history.map (fun h => h ++ "\n")) rest
    else
      match Command.execute w.exec cmd st1.pwd none with
      | .error _ => runChains w st1 printed rest
      | .ok none => runChains w st1 printed rest
      | .ok (some out) =>
        match utf8Decode out with
        | none => .err st1 printed .utf8Err
        | some s => runChains w st1 (printed ++ [s]) rest
  | st, printed, .Piped (cmd1, cmd2) :: rest =>
    match Command.execute w.exec cmd1 st.pwd none with
    | .error e => .err st printed e
    | .ok o1 =>
      match Command.execute w.exec cmd2 st.pwd (some (o1.getD [])) with
      | .error e => .err st printed e
      | .ok none => runChains w st printed rest
      | .ok (some out) =>
        match utf8Decode out with
        | none => .err st printed .utf8Err
        | some s => runChains w st (printed ++ [s]) rest

/-- Outcome of one iteration of `main`'s loop on one read attempt. -/
inductive StepOutcome where
  | next (st : CommandRunner) (printed : List String)
  | fatal (st : CommandRunner) (printed : List String) (e : ShellError)
  | exited (st : CommandRunner) (printed : List String) (code : Int)
deriving DecidableEq, Repr

/-- One iteration of `main`'s loop: `show_prompt()?`, then
`let Ok(commands) = parse_cmds() else { continue }`, then
`runner.run(commands)?`. A parse or read failure falls through to the next
prompt; an `Err` from `run` propagates out of `main` (`fatal`). -/
def replStep (w : World) (st : CommandRunner) (readResult : Except Unit String) : StepOutcome :=
  if w.promptOk = false then .fatal st [] .promptErr
  else
    match parse_cmds readResult with
    | .error _ => .next st []
    | .ok chains =>
      match runChains w st [] chains with
      | .ok st' printed => .next st' printed
      | .err st' printed e => .fatal st' printed e
      | .exited st' printed code => .exited st' printed code

/-- Result of driving `main`'s loop over a finite list of read attempts:
either the inputs ran out with the loop still live (`pending`), or the
process ended (`fatal` from a propagated error, `exited` from the `exit`
builtin). -/
inductive ReplResult where
  | pending (st : CommandRunner) (printed : List String)
  | fatal (st : CommandRunner) (printed : List String) (e : ShellError)
  | exited (st : CommandRunner) (printed : List String) (code : Int)
deriving DecidableEq, Repr

/-- Drive `main`'s loop over a list of read attempts. -/
def replRun (w : World) : CommandRunner → List String → List (Except Unit String) → ReplResult
  | st, printed, [] => .pending st printed
  | st, printed, r :: rs =>
    match replStep w st r with
    | .next st' pr => replRun w st' (printed ++ pr) rs
    | .fatal st' pr e => .fatal st' (printed ++ pr) e
    | .exited st' pr c => .exited st' (printed ++ pr) c

/-- The textual forms that a run of the given chain list records in history
when every element is reached: exactly the `Single` elements' commands, in
order (`Piped` commands are never pushed). -/
def singleTexts : List CommandChain → List String
  | [] => []
  | .Command c :: rest => c.render :: singleTexts rest
  | .Piped _ :: rest => singleTexts rest

/-- Spec-side command parsing, following the spec's words: "the first
whitespace-delimited token is the executable name, the rest are arguments;
zero tokens (blank segment) is a hard error". -/
def specCommand (part : String) : Except ShellError Command :=
  match (splitWhitespace part.data).map (fun g => (⟨g⟩ : String)) with
  | [] => .error .noCommandGiven
  | t :: ts => .ok { bin := t, args := ts }

/-- Spec-side parsing of one segment, following the spec's words: "split on
the `|` separator; exactly one part → a single command; exactly two parts →
a `Piped` element; any other count → a hard error reporting the segment". -/
def specSegment (seg : String) : Except ShellError CommandChain :=
  match (splitCh '|' seg.data).map (fun g => (⟨g⟩ : String)) with
  | [p] => (specCommand p).map CommandChain.Command
  | [p1, p2] => do
    let c1 ← specCommand p1
    let c2 ← specCommand p2
    pure (.Piped (c1, c2))
  | _ => .error (.pipeArity seg)

/-- First-error sequencing, following the spec's words: "the parser returns
the first error encountered and parses no further; it does not partially
apply a malformed line". -/
def firstErrorSeq : List (Except ShellError CommandChain) →
    Except ShellError (List CommandChain)
  | [] => .ok []
  | .error e :: _ => .error e
  | .ok c :: rest => (firstErrorSeq rest).map (fun l => c :: l)

/-- The chain parser as the spec describes it: segments of the trimmed line,
each parsed independently, sequenced with first-error semantics (an empty
line has no segments, hence yields the empty sequence with no error). -/
def specParse (line : String) : Except ShellError (List CommandChain) :=
  firstErrorSeq ((lineSegments line).map specSegment)

/-- A concrete world: every spawn succeeds with exit status 0 and empty
stdout, and every `canonicalize` call fails. -/
def wNone : World :=
  { exec := fun _ _ _ => .exited 0 [], canonicalize := fun _ => none, promptOk := true }

/-- A concrete world in which writing the prompt fails. -/
def wPrompt : World :=
  { wNone with promptOk := false }

/-- A concrete starting session state. -/
def st0 : CommandRunner := { pwd := "/start", history := [] }

end Shell

namespace Shell

example : parse_cmds (.ok "") = .ok [] := by decide
example : parse_cmds (.ok "echo a") = .ok [.Command ⟨"echo", ["a"]⟩] := by decide
example : parse_cmds (.ok " echo a ; b | c d \n") =
    .ok [.Command ⟨"echo", ["a"]⟩, .Piped (⟨"b", []⟩, ⟨"c", ["d"]⟩)] := by decide
example : parse_cmds (.ok "a | b | c") = .error (.pipeArity "a | b | c") := by decide
example : parse_cmds (.ok "a;") = .ok [.Command ⟨"a", []⟩] := by decide
example : parse_cmds (.ok "a;;b") = .error .noCommandGiven := by decide
example : (⟨"history", []⟩ : Command).render = "history " := by decide
example : replStep wNone st0 (.ok "exit 3") = .exited ⟨"/start", ["exit 3"]⟩ [] 3 := by decide
example : utf8Decode [104, 105] = some "hi" := by decide
example : utf8Decode [0xFF] = none := by decide
example : parseI32 "3" = some 3 := by decide
example : parseI32 "-12" = some (-12) := by decide
example : parseI32 "foo" = none := by decide
example : parseI32 "2147483648" = none := by decide
example : parseI32 "2147483647" = some 2147483647 := by decide

end Shell

namespace Shell

/-- Helper: a run only ever appends to history (append-only invariant). -/
lemma runChains_history_mono (w : World) (chains : List CommandChain) :
    ∀ st printed, ∃ t, ((runChains w st printed chains).state).history = st.history ++ t := by
  induction chains with
  | nil =>
    intro st printed
    exact ⟨[], by simp [runChains, RunOutcome.state]⟩
  | cons chain rest ih =>
    intro st printed
    cases chain with
    | Command cmd =>
      simp only [runChains]
      split
      · -- cd branch
        split
        · exact ⟨[cmd.render], rfl⟩
        · split
          · exact ⟨[cmd.render], rfl⟩
          · obtain ⟨t, ht⟩ := ih _ printed
            exact ⟨[cmd.render] ++ t, by rw [ht]; simp⟩
      · split
        · -- exit branch
          split
          · exact ⟨[cmd.render], rfl⟩
          · split
            · exact ⟨[cmd.render], rfl⟩
            · exact ⟨[cmd.render], rfl⟩
        · split
          · -- history branch
            obtain ⟨t, ht⟩ := ih _ _
            exact ⟨[cmd.render] ++ t, by rw [ht]; simp⟩
          · -- external branch
            split
            · obtain ⟨t, ht⟩ := ih _ _
              exact ⟨[cmd.render] ++ t, by rw [ht]; simp⟩
            · obtain ⟨t, ht⟩ := ih _ _
              exact ⟨[cmd.render] ++ t, by rw [ht]; simp⟩
            · split
              · exact ⟨[cmd.render], rfl⟩
              · obtain ⟨t, ht⟩ := ih _ _
                exact ⟨[cmd.render] ++ t, by rw [ht]; simp⟩
    | Piped p =>
      obtain ⟨cmd1, cmd2⟩ := p
      simp only [runChains]
      split
      · exact ⟨[], by simp [RunOutcome.state]⟩
      · split
        · exact ⟨[], by simp [RunOutcome.state]⟩
        · exact ih _ _
        · split
          · exact ⟨[], by simp [RunOutcome.state]⟩
          · exact ih _ _

end Shell

namespace Shell

/-- Helper: a run that returns `Ok(())` has appended exactly the `Single`
elements' textual forms to history, in order. -/
lemma runChains_ok_history (w : World) (chains : List CommandChain) :
    ∀ st printed st' printed', runChains w st printed chains = .ok st' printed' →
      st'.history = st.history ++ singleTexts chains := by
  induction chains with
  | nil =>
    intro st printed st' printed' h
    simp only [runChains, RunOutcome.ok.injEq] at h
    rw [← h.1]
    simp [singleTexts]
  | cons chain rest ih =>
    intro st printed st' printed' h
    cases chain with
    | Command cmd =>
      simp only [runChains] at h
      split at h
      · split at h
        · simp at h
        · split at h
          · simp at h
          · rw [ih _ _ _ _ h]
            simp [singleTexts]
      · split at h
        · split at h
          · simp at h
          · split at h
            · simp at h
            · simp at h
        · split at h
          · rw [ih _ _ _ _ h]
            simp [singleTexts]
          · split at h
            · rw [ih _ _ _ _ h]
              simp [singleTexts]
            · rw [ih _ _ _ _ h]
              simp [singleTexts]
            · split at h
              · simp at h
              · rw [ih _ _ _ _ h]
                simp [singleTexts]
    | Piped p =>
      obtain ⟨cmd1, cmd2⟩ := p
      simp only [runChains] at h
      split at h
      · simp at h
      · split at h
        · simp at h
        · rw [ih _ _ _ _ h]
          simp [singleTexts]
        · split at h
          · simp at h
          · rw [ih _ _ _ _ h]
            simp [singleTexts]

/-- Helper: a run can only end in `std::process::exit` when some `Single`
element of the chain list is named `exit`. -/
lemma runChains_exited_has_exit (w : World) (chains : List CommandChain) :
    ∀ st printed st' printed' c, runChains w st printed chains = .exited st' printed' c →
      ∃ cmd, CommandChain.Command cmd ∈ chains ∧ cmd.bin = "exit" := by
  induction chains with
  | nil =>
    intro st printed st' printed' c h
    simp [runChains] at h
  | cons chain rest ih =>
    intro st printed st' printed' c h
    cases chain with
    | Command cmd =>
      simp only [runChains] at h
      split at h
      · split at h
        · simp at h
        · split at h
          · simp at h
          · obtain ⟨cmd', hm, hb⟩ := ih _ _ _ _ _ h
            exact ⟨cmd', by simp [hm], hb⟩
      · split at h
        · rename_i hexit
          exact ⟨cmd, by simp, hexit⟩
        · split at h
          · obtain ⟨cmd', hm, hb⟩ := ih _ _ _ _ _ h
            exact ⟨cmd', by simp [hm], hb⟩
          · split at h
            · obtain ⟨cmd', hm, hb⟩ := ih _ _ _ _ _ h
              exact ⟨cmd', by simp [hm], hb⟩
            · obtain ⟨cmd', hm, hb⟩ := ih _ _ _ _ _ h
              exact ⟨cmd', by simp [hm], hb⟩
            · split at h
              · simp at h
              · obtain ⟨cmd', hm, hb⟩ := ih _ _ _ _ _ h
                exact ⟨cmd', by simp [hm], hb⟩
    | Piped p =>
      obtain ⟨cmd1, cmd2⟩ := p
      simp only [runChains] at h
      split at h
      · simp at h
      · split at h
        · simp at h
        · obtain ⟨cmd', hm, hb⟩ := ih _ _ _ _ _ h
          exact ⟨cmd', by simp [hm], hb⟩
        · split at h
          · simp at h
          · obtain ⟨cmd', hm, hb⟩ := ih _ _ _ _ _ h
            exact ⟨cmd', by simp [hm], hb⟩

end Shell

namespace Shell

/-- Helper: a successful parse means no segment had three or more
`|`-delimited parts. -/
lemma parseChains_ok_parts (segs : List String) :
    ∀ l, parseChains segs = .ok l → ∀ seg ∈ segs, (splitCh '|' seg.data).length ≤ 2 := by
  induction segs with
  | nil =>
    intro l h seg hm
    simp at hm
  | cons raw rest ih =>
    intro l h seg hm
    simp only [parseChains] at h
    rcases List.mem_cons.mp hm with rfl | hmem
    · split at h
      · rename_i c1 c2 heq
        have hlen := congrArg List.length heq
        simp at hlen
        omega
      · rename_i c1 heq
        have hlen := congrArg List.length heq
        simp at hlen
        omega
      · simp at h
    · split at h
      · rename_i c1 c2 heq
        cases hc1 : parse_command c1 with
        | error e => simp [hc1, Bind.bind, Except.bind] at h
        | ok cc1 =>
          cases hc2 : parse_command c2 with
          | error e => simp [hc1, hc2, Bind.bind, Except.bind] at h
          | ok cc2 =>
            cases ht : parseChains rest with
            | error e => simp [hc1, hc2, ht, Bind.bind, Except.bind] at h
            | ok tail => exact ih tail ht seg hmem
      · rename_i c1 heq
        cases hc1 : parse_command c1 with
        | error e => simp [hc1, Bind.bind, Except.bind] at h
        | ok cc1 =>
          cases ht : parseChains rest with
          | error e => simp [hc1, ht, Bind.bind, Except.bind] at h
          | ok tail => exact ih tail ht seg hmem
      · simp at h

/-- Helper: `parse_command` and the spec-side `specCommand` agree. -/
lemma parse_command_eq_spec (s : String) : parse_command s = specCommand s := rfl

/-- Helper: the source parser equals the spec-side parser segmentwise. -/
lemma parseChains_eq_spec (segs : List String) :
    parseChains segs = firstErrorSeq (segs.map specSegment) := by
  induction segs with
  | nil => rfl
  | cons raw rest ih =>
    simp only [parseChains, List.map]
    cases heq : (splitCh '|' raw.data).map (fun g => (⟨g⟩ : String)) with
    | nil =>
      simp only [specSegment, heq, firstErrorSeq]
    | cons c1 tl =>
      cases tl with
      | nil =>
        simp only [specSegment, heq]
        cases hc1 : parse_command c1 with
        | error e =>
          rw [parse_command_eq_spec] at hc1
          simp [hc1, ← parse_command_eq_spec, Bind.bind, Except.bind, firstErrorSeq,
            Except.map]
        | ok cc1 =>
          rw [parse_command_eq_spec] at hc1
          simp only [hc1, ← parse_command_eq_spec, Bind.bind, Except.bind, firstErrorSeq,
            Except.map, ih]
          cases firstErrorSeq (rest.map specSegment) with
          | error e => rfl
          | ok tail => rfl
      | cons c2 tl2 =>
        cases tl2 with
        | nil =>
          simp only [specSegment, heq]
          cases hc1 : parse_command c1 with
          | error e =>
            rw [parse_command_eq_spec] at hc1
            simp [hc1, ← parse_command_eq_spec, Bind.bind, Except.bind, firstErrorSeq]
          | ok cc1 =>
            cases hc2 : parse_command c2 with
            | error e =>
              rw [parse_command_eq_spec] at hc1
              rw [parse_command_eq_spec] at hc2
              simp [hc1, hc2, ← parse_command_eq_spec, Bind.bind, Except.bind, firstErrorSeq]
            | ok cc2 =>
              rw [parse_command_eq_spec] at hc1
              rw [parse_command_eq_spec] at hc2
              simp only [hc1, hc2, ← parse_command_eq_spec, Bind.bind, Except.bind,
                firstErrorSeq, ih]
              cases firstErrorSeq (rest.map specSegment) with
              | error e => rfl
              | ok tail => rfl
        | cons c3 tl3 =>
          simp only [specSegment, heq, firstErrorSeq]

end Shell

namespace Shell

/-- Helper: a chain list headed by a `Single` element records that element's
textual form in history immediately, whatever happens afterwards. -/
lemma runChains_cons_command_history (w : World) (st : CommandRunner)
    (printed : List String) (cmd : Command) (rest : List CommandChain) :
    ∃ t, ((runChains w st printed (.Command cmd :: rest)).state).history =
      st.history ++ [cmd.render] ++ t := by
  simp only [runChains]
  split
  · split
    · exact ⟨[], by simp [RunOutcome.state]⟩
    · split
      · exact ⟨[], by simp [RunOutcome.state]⟩
      · obtain ⟨t, ht⟩ := runChains_history_mono w rest _ printed
        exact ⟨t, by rw [ht]⟩
  · split
    · split
      · exact ⟨[], by simp [RunOutcome.state]⟩
      · split
        · exact ⟨[], by simp [RunOutcome.state]⟩
        · exact ⟨[], by simp [RunOutcome.state]⟩
    · split
      · obtain ⟨t, ht⟩ := runChains_history_mono w rest _ _
        exact ⟨t, by rw [ht]⟩
      · split
        · obtain ⟨t, ht⟩ := runChains_history_mono w rest _ _
          exact ⟨t, by rw [ht]⟩
        · obtain ⟨t, ht⟩ := runChains_history_mono w rest _ _
          exact ⟨t, by rw [ht]⟩
        · split
          · exact ⟨[], by simp [RunOutcome.state]⟩
          · obtain ⟨t, ht⟩ := runChains_history_mono w rest _ _
            exact ⟨t, by rw [ht]⟩

/-- Helper: the rendered form of an argumentless command is the executable
name followed by one space. -/
lemma render_of_no_args (bin : String) : Command.render ⟨bin, []⟩ = bin ++ " " := by
  show bin ++ " " ++ joinSpace [] = bin ++ " "
  rw [show joinSpace [] = "" from rfl, String.append_empty]

/-- C9: for every spawned external command that terminates, a non-zero exit
status of the child is not treated as an error by `execute`: the bytes the
child wrote to stdout are returned as a successful result for every exit
status, so the status (never inspected by the caller) cannot influence the
result. -/
theorem C9_exit_status_ignored
    (os : Shell.Command → String → Option (List Nat) → OSResp)
    (c : Shell.Command) (cwd : String) (input : Option (List Nat))
    (status : Int) (stdout : List Nat)
    (h : os c cwd input = .exited status stdout) :
    Command.execute os c cwd input = .ok (some stdout) := by
  simp [Command.execute, h]

/-- Witness for C9: a child exiting with status 7 still has its stdout
returned as a success. -/
theorem C9_witness :
    Command.execute (fun _ _ _ => OSResp.exited 7 [104, 105]) ⟨"false", []⟩ "/start" none =
      .ok (some [104, 105]) :=
  C9_exit_status_ignored (fun _ _ _ => OSResp.exited 7 [104, 105]) ⟨"false", []⟩ "/start"
    none 7 [104, 105] rfl

/-- C10: a command with zero arguments is rendered — in the history record
and hence in the `history` builtin's output — as the executable name followed
by a single trailing space: the formatting is always executable, one space,
then the space-joined arguments, even when the argument list is empty. -/
theorem C10_trailing_space (w : World) (st : CommandRunner) (printed : List String)
    (rest : List CommandChain) (bin : String) :
    Command.render ⟨bin, []⟩ = bin ++ " " ∧
    ∃ t, ((runChains w st printed (.Command ⟨bin, []⟩ :: rest)).state).history =
      st.history ++ [bin ++ " "] ++ t := by
  refine ⟨render_of_no_args bin, ?_⟩
  obtain ⟨t, ht⟩ := runChains_cons_command_history w st printed ⟨bin, []⟩ rest
  rw [render_of_no_args bin] at ht
  exact ⟨t, ht⟩

/-- C6: the chain parser is a function of the input line satisfying the
spec's equations — the trimmed line is split on `;` (an empty line yielding
the empty sequence with no error); each segment is split on `|`; one part is
a `Single` command from the whitespace rule (first token the executable, the
rest arguments), two parts a `Piped` pair by the same rule, a token-less
segment a hard error; the first error is returned and a malformed line
produces no elements. -/
theorem C6_parser_refines_spec :
    (∀ line, parse_cmds (.ok line) = specParse line) ∧ parse_cmds (.ok "") = .ok [] := by
  constructor
  · intro line
    simp only [parse_cmds, specParse]
    exact parseChains_eq_spec (lineSegments line)
  · decide

/-- C8: a line containing a segment with more than one `|` (three or more
parts) fails to parse, and the whole line is discarded: no chain element
executes (including well-formed segments before the offending one), no
history entry is made, nothing is printed, and the loop goes on to the next
prompt with the session state unchanged. -/
theorem C8_pipe_arity_discards_line (w : World) (st : CommandRunner) (line seg : String)
    (hp : w.promptOk = true) (hmem : seg ∈ lineSegments line)
    (h3 : 3 ≤ (splitCh '|' seg.data).length) :
    (∃ e, parse_cmds (.ok line) = .error e) ∧ replStep w st (.ok line) = .next st [] := by
  have hparse : ∀ l, parse_cmds (.ok line) ≠ .ok l := by
    intro l hl
    have := parseChains_ok_parts (lineSegments line) l (by simpa [parse_cmds] using hl)
      seg hmem
    omega
  cases hpc : parse_cmds (.ok line) with
  | error e => exact ⟨⟨e, rfl⟩, by simp [replStep, hp, hpc]⟩
  | ok l => exact absurd hpc (hparse l)

/-- Witness for C8: the line `a; a | b | c` is rejected whole — the
well-formed leading segment `a` does not run. -/
theorem C8_witness :
    (∃ e, parse_cmds (.ok "a; a | b | c") = .error e) ∧
      replStep wNone st0 (.ok "a; a | b | c") = .next st0 [] :=
  C8_pipe_arity_discards_line wNone st0 "a; a | b | c" " a | b | c" rfl (by decide)
    (by decide)

end Shell

namespace Shell

/-- C7: for every `Piped` element `(first, second)` — whatever the two
commands are named, `cd`/`exit`/`history` included, so builtins are never
recognized inside a pipe stage — `first` is executed as an external command
with no stdin, `second` is executed with exactly `first`'s output bytes as
its stdin, `second`'s decoded output is printed on success, and the session
state is untouched; a first-stage failure aborts with that error. -/
theorem C7_piped_semantics (w : World) (st : CommandRunner) (printed : List String)
    (c1 c2 : Shell.Command) (rest : List CommandChain) :
    (∀ s1 o1 s2 o2 str, w.exec c1 st.pwd none = .exited s1 o1 →
        w.exec c2 st.pwd (some o1) = .exited s2 o2 → utf8Decode o2 = some str →
        runChains w st printed (.Piped (c1, c2) :: rest) =
          runChains w st (printed ++ [str]) rest)
    ∧ (w.exec c1 st.pwd none = .spawnFail →
        runChains w st printed (.Piped (c1, c2) :: rest) = .err st printed .spawnErr)
    ∧ (∀ s1 o1, w.exec c1 st.pwd none = .exited s1 o1 →
        w.exec c2 st.pwd (some o1) = .spawnFail →
        runChains w st printed (.Piped (c1, c2) :: rest) = .err st printed .spawnErr) := by
  refine ⟨?_, ?_, ?_⟩
  · intro s1 o1 s2 o2 str h1 h2 hdec
    simp [runChains, Command.execute, h1, h2, hdec]
  · intro h1
    simp [runChains, Command.execute, h1]
  · intro s1 o1 h1 h2
    simp [runChains, Command.execute, h1, h2]

/-- Witness for C7: a piped element whose stages are named `exit` and `cd`
still runs both stages externally — nothing exits, the working directory and
history stay untouched, and the second stage's (empty) output is printed. -/
theorem C7_witness :
    runChains wNone st0 [] [.Piped (⟨"exit", []⟩, ⟨"cd", ["x"]⟩)] =
      runChains wNone st0 ([] ++ [""]) [] :=
  (C7_piped_semantics wNone st0 [] ⟨"exit", []⟩ ⟨"cd", ["x"]⟩ []).1 0 [] 0 [] "" rfl rfl
    (by decide)

/-- C4 counterexample: after entering `echo a` then `echo b`, entering
`history` prints three lines — `echo a`, `echo b`, and `history ` (itself,
with a trailing space) — not the two lines the claim requires, because the
command is pushed to history before dispatch and the builtin prints the
updated list. -/
theorem C4_counterexample :
    replRun wNone st0 [] [.ok "echo a", .ok "echo b", .ok "history"] =
      .pending ⟨"/start", ["echo a", "echo b", "history "]⟩
        ["", "", "echo a\n", "echo b\n", "history \n"] := by decide

/-- C4 amended: the `history` builtin prints every recorded entry, oldest
first, one per line, in the rendered textual form — and, because the
dispatched `history` command is itself recorded before dispatch, it appears
as the last line of its own output. -/
theorem C4_amended (w : World) (st : CommandRunner) (printed : List String)
    (cmd : Shell.Command) (rest : List CommandChain) (hbin : cmd.bin = "history") :
    runChains w st printed (.Command cmd :: rest) =
      runChains w { st with history := st.history ++ [cmd.render] }
        (printed ++ (st.history ++ [cmd.render]).map (fun h => h ++ "\n")) rest := by
  have h1 : cmd.bin ≠ "cd" := by rw [hbin]; decide
  have h2 : cmd.bin ≠ "exit" := by rw [hbin]; decide
  simp [runChains, h1, h2, hbin]

/-- Witness for C4: dispatching `history` with one prior entry prints that
entry and then the `history ` entry itself. -/
theorem C4_witness :
    runChains wNone ⟨"/start", ["echo a"]⟩ [] [.Command ⟨"history", []⟩] =
      runChains wNone ⟨"/start", ["echo a", "history "]⟩ ["echo a\n", "history \n"] [] := by
  have h := C4_amended wNone ⟨"/start", ["echo a"]⟩ [] ⟨"history", []⟩ [] rfl
  simpa using h

/-- C5 counterexample: `exit foo; echo hi` — the malformed `exit` argument is
not an element-local error: `run` returns it, `main` propagates it (the
process terminates as `fatal`), and the remaining element `echo hi` never
runs (no history entry, no output). -/
theorem C5_counterexample :
    replStep wNone st0 (.ok "exit foo; echo hi") =
      .fatal ⟨"/start", ["exit foo"]⟩ [] .exitParseErr := by decide

/-- C5 amended: a `Single` `exit` with no argument terminates the process
with code 0 and with a well-formed integer argument with exactly that code,
processing no further chain elements and no further lines; a non-integer
argument is an error that `run` returns — it is not element-local: the
remaining chain elements do not run and `main` terminates on it. -/
theorem C5_amended (w : World) (st : CommandRunner) (printed : List String)
    (cmd : Shell.Command) (rest : List CommandChain) (hbin : cmd.bin = "exit") :
    (cmd.args.head? = none →
      runChains w st printed (.Command cmd :: rest) =
        .exited { st with history := st.history ++ [cmd.render] } printed 0)
    ∧ (∀ a n, cmd.args.head? = some a → parseI32 a = some n →
        runChains w st printed (.Command cmd :: rest) =
          .exited { st with history := st.history ++ [cmd.render] } printed n)
    ∧ (∀ a, cmd.args.head? = some a → parseI32 a = none →
        runChains w st printed (.Command cmd :: rest) =
          .err { st with history := st.history ++ [cmd.render] } printed .exitParseErr)
    ∧ (∀ line rs a n, w.promptOk = true →
        parse_cmds (.ok line) = .ok (.Command cmd :: rest) →
        cmd.args.head? = some a → parseI32 a = some n →
        replRun w st [] (.ok line :: rs) =
          .exited { st with history := st.history ++ [cmd.render] } [] n) := by
  have h1 : cmd.bin ≠ "cd" := by rw [hbin]; decide
  refine ⟨?_, ?_, ?_, ?_⟩
  · intro hnone
    simp [runChains, h1, hbin, hnone]
  · intro a n ha hn
    simp [runChains, h1, hbin, ha, hn]
  · intro a ha hn
    simp [runChains, h1, hbin, ha, hn]
  · intro line rs a n hp hline ha hn
    have hrun : runChains w st [] (.Command cmd :: rest) =
        .exited { st with history := st.history ++ [cmd.render] } [] n := by
      simp [runChains, h1, hbin, ha, hn]
    simp [replRun, replStep, hp, hline, hrun]

/-- Witness for C5: `exit 3` as the sole element terminates with code 3. -/
theorem C5_witness :
    runChains wNone st0 [] [.Command ⟨"exit", ["3"]⟩] =
      .exited ⟨"/start", ["exit 3"]⟩ [] 3 := by
  have h := (C5_amended wNone st0 [] ⟨"exit", ["3"]⟩ [] rfl).2.1 "3" 3 rfl (by decide)
  simpa using h

end Shell

namespace Shell

/-- C1 counterexample: on the line `cd nope; echo hi` with `canonicalize`
failing, the working directory is indeed unchanged, but the failure is not
local to the element: the outcome is `fatal` (main propagates the error and
the process ends), the subsequent `echo hi` never runs (history holds only
`cd nope`), and the REPL does not prompt again. -/
theorem C1_counterexample :
    replStep wNone st0 (.ok "cd nope; echo hi") =
      .fatal ⟨"/start", ["cd nope"]⟩ [] .canonicalizeErr := by decide

/-- C1 amended: when a `Single` `cd` element's path fails to canonicalize,
the session's working directory is left unchanged (its prior value is kept),
but the error is not local: `run` returns it at once — the subsequent chain
elements of the line are not processed — and `main` propagates it, so the
process terminates with a fatal error instead of prompting again. -/
theorem C1_amended (w : World) (st : CommandRunner) (cmd : Shell.Command)
    (rest : List CommandChain) (path line : String)
    (hp : w.promptOk = true) (hbin : cmd.bin = "cd") (harg : cmd.args.head? = some path)
    (hfail : w.canonicalize (pathJoin st.pwd path) = none)
    (hline : parse_cmds (.ok line) = .ok (.Command cmd :: rest)) :
    replStep w st (.ok line) =
      .fatal { st with history := st.history ++ [cmd.render] } [] .canonicalizeErr := by
  have hrun : runChains w st [] (.Command cmd :: rest) =
      .err { st with history := st.history ++ [cmd.render] } [] .canonicalizeErr := by
    simp [runChains, hbin, harg, hfail]
  simp [replStep, hp, hline, hrun]

/-- Witness for C1: `cd nope` with failing canonicalization keeps
`pwd = "/start"` and ends the step fatally. -/
theorem C1_witness :
    replStep wNone st0 (.ok "cd nope") =
      .fatal ⟨"/start", ["cd nope"]⟩ [] .canonicalizeErr := by
  have h := C1_amended wNone st0 ⟨"cd", ["nope"]⟩ [] "nope" "cd nope" rfl rfl rfl rfl
    (by decide)
  simpa using h

/-- C3 counterexample: the successfully parsed and executed line `a | b`
leaves history empty — neither command of the `Piped` element is appended,
refuting the claim that every command of the line (both pipe stages
included) is recorded. -/
theorem C3_counterexample :
    replStep wNone st0 (.ok "a | b") = .next st0 [""] := by decide

/-- C3 amended: history is append-only, and it records exactly the `Single`
elements' commands: a run that completes appends precisely the textual forms
of the `Single` elements in order; a `Single` head is recorded before its
dispatch whatever the outcome; `Piped` commands are never recorded. -/
theorem C3_amended (w : World) (chains : List CommandChain) (st : CommandRunner)
    (printed : List String) :
    (∀ st' printed', runChains w st printed chains = .ok st' printed' →
      st'.history = st.history ++ singleTexts chains)
    ∧ (∃ t, ((runChains w st printed chains).state).history = st.history ++ t)
    ∧ (∀ cmd rest, chains = .Command cmd :: rest →
        ∃ t, ((runChains w st printed chains).state).history =
          st.history ++ [cmd.render] ++ t) := by
  refine ⟨runChains_ok_history w chains st printed,
    runChains_history_mono w chains st printed, ?_⟩
  intro cmd rest h
  subst h
  exact runChains_cons_command_history w st printed cmd rest

/-- Witness for C3: running `a` then `b` as two `Single` elements appends
exactly `a ` then `b ` to an empty history. -/
theorem C3_witness :
    (⟨"/start", ["a ", "b "]⟩ : CommandRunner).history =
      st0.history ++ singleTexts [.Command ⟨"a", []⟩, .Command ⟨"b", []⟩] :=
  (C3_amended wNone [.Command ⟨"a", []⟩, .Command ⟨"b", []⟩] st0 []).1
    ⟨"/start", ["a ", "b "]⟩ ["", ""] (by decide)

/-- C2 counterexample: an unrecoverable I/O failure while reading a line
does not terminate the process — `main` swallows the `parse_cmds` error and
continues the loop — and EOF (an empty line, since `read_line` reports EOF
as success) also continues; the claim's "if" direction is false. -/
theorem C2_counterexample :
    replStep wNone st0 (.error ()) = .next st0 [] ∧
      replStep wNone st0 (.ok "") = .next st0 [] := by
  exact ⟨by decide, by decide⟩

/-- C2 amended: one loop iteration terminates the process only through a
prompt-write failure, an error returned by `run` (cd failure or missing
argument, malformed `exit` argument, a piped stage's spawn/IO failure, or
an output UTF-8 decoding failure), or the `exit` builtin — an `exit`-named
`Single` element must be present for the `exited` outcome; read-line and
parse failures never terminate: the loop continues with the state
unchanged. -/
theorem C2_amended (w : World) (st : CommandRunner) (r : Except Unit String) :
    (w.promptOk = false → replStep w st r = .fatal st [] .promptErr)
    ∧ (∀ e, w.promptOk = true → parse_cmds r = .error e → replStep w st r = .next st [])
    ∧ (∀ st' pr e, replStep w st r = .fatal st' pr e →
        w.promptOk = false ∨
          ∃ chains, parse_cmds r = .ok chains ∧ runChains w st [] chains = .err st' pr e)
    ∧ (∀ st' pr c, replStep w st r = .exited st' pr c →
        ∃ chains, parse_cmds r = .ok chains ∧
          runChains w st [] chains = .exited st' pr c ∧
          ∃ cmd, CommandChain.Command cmd ∈ chains ∧ cmd.bin = "exit") := by
  refine ⟨?_, ?_, ?_, ?_⟩
  · intro h
    simp [replStep, h]
  · intro e hp hpe
    simp [replStep, hp, hpe]
  · intro st' pr e h
    by_cases hp : w.promptOk = true
    · right
      simp only [replStep, hp, Bool.true_eq_false, if_false] at h
      split at h
      · simp at h
      · rename_i chains hpc
        split at h
        · simp at h
        · rename_i a b c2 hrc
          simp only [StepOutcome.fatal.injEq] at h
          obtain ⟨rfl, rfl, rfl⟩ := h
          exact ⟨chains, hpc, hrc⟩
        · simp at h
    · left
      simpa using hp
  · intro st' pr c h
    by_cases hp : w.promptOk = true
    · simp only [replStep, hp, Bool.true_eq_false, if_false] at h
      split at h
      · simp at h
      · rename_i chains hpc
        split at h
        · simp at h
        · simp at h
        · rename_i a b c2 hrc
          simp only [StepOutcome.exited.injEq] at h
          obtain ⟨rfl, rfl, rfl⟩ := h
          exact ⟨chains, hpc, hrc, runChains_exited_has_exit w chains _ _ _ _ _ hrc⟩
    · have hfalse : w.promptOk = false := by simpa using hp
      simp [replStep, hfalse] at h

/-- Witness for C2: with a failing prompt write the step is fatal. -/
theorem C2_witness :
    replStep wPrompt st0 (.ok "") = .fatal st0 [] .promptErr :=
  (C2_amended wPrompt st0 (.ok "")).1 rfl

end Shell
